import Mathlib

/-!
Verification of the DocumentQuery-Bot conversational core against its
natural-language specification.

Text is modelled as `List Nat` (Unicode code points); the helpers below embed
the Python string operations used by the source (`str.split`, `str.join`,
`str.capitalize`, `str.strip`, `str.lower`, substring tests and the small
regular expressions of the date extractor).  Character case mapping is
modelled for the ASCII range, which covers every literal the source matches
against.
-/

/-- Code-point strings. -/
abbrev Str := List Nat

/-- Convert a Lean string literal to its code-point list. -/
def str (s : String) : Str := s.data.map Char.toNat

/-- Python `str.isspace` characters relevant to `str.split()` /`str.strip()`. -/
def isSpaceN (c : Nat) : Bool :=
  c = 32 || c = 9 || c = 10 || c = 13 || c = 11 || c = 12

/-- ASCII decimal digit test (`\d` in the source's regexes). -/
def isDigitN (c : Nat) : Bool := 48 ≤ c && c ≤ 57

/-- ASCII letter test (`[A-Za-z]` in the email regex). -/
def isAlphaN (c : Nat) : Bool := (65 ≤ c && c ≤ 90) || (97 ≤ c && c ≤ 122)

/-- ASCII upper-casing of one code point (Python `str.upper` on ASCII). -/
def toUpperN (c : Nat) : Nat := if 97 ≤ c ∧ c ≤ 122 then c - 32 else c

/-- ASCII lower-casing of one code point (Python `str.lower` on ASCII). -/
def toLowerN (c : Nat) : Nat := if 65 ≤ c ∧ c ≤ 90 then c + 32 else c

/-- Python `str.lower` over a whole string. -/
def lowerStr (s : Str) : Str := s.map toLowerN

/-- Numeric value of a digit run (regex capture groups converted by `int`). -/
def digitsToNat (l : Str) : Nat := l.foldl (fun a c => 10 * a + (c - 48)) 0

mutual

/-- Helper for `words`: currently inside a word, skip to the next space. -/
def wordsGo : Str → List Str
  | [] => []
  | c :: cs => if isSpaceN c then words cs else wordsGo cs

/-- Python `str.split()` (split on whitespace runs, dropping empty parts). -/
def words : Str → List Str
  | [] => []
  | c :: cs =>
    if isSpaceN c then words cs
    else (c :: cs.takeWhile (fun x => !isSpaceN x)) :: wordsGo cs

end

/-- Python `" ".join`. -/
def joinSp : List Str → Str
  | [] => []
  | [t] => t
  | t :: ts => t ++ 32 :: joinSp ts

/-- Python `str.capitalize`: first character upper-cased, the rest lower-cased. -/
def capitalizePy : Str → Str
  | [] => []
  | c :: cs => toUpperN c :: cs.map toLowerN

/-- Python `str.strip()`: remove leading and trailing whitespace. -/
def stripStr (l : Str) : Str :=
  ((l.dropWhile isSpaceN).reverse.dropWhile isSpaceN).reverse

/-!  ## `src/chatbot/form/validator.py`  -/

/-- The normalized value built by `validate_name`:
`" ".join(part.capitalize() for part in text.split())`. -/
def nameCleaned (text : Str) : Str := joinSp ((words text).map capitalizePy)

/-- Embeds `validate_name` from `validator.py`. -/
def validate_name (text : Str) : Bool × Str :=
  let cleaned := nameCleaned text
  if cleaned.length < 2 then (false, str "Please provide your full name.")
  else (true, cleaned)

/-- Characters allowed in the email local part: `[A-Za-z0-9._%+-]`. -/
def isLocalChar (c : Nat) : Bool :=
  isAlphaN c || isDigitN c || c = 46 || c = 95 || c = 37 || c = 43 || c = 45

/-- Characters allowed in the email domain: `[A-Za-z0-9.-]`. -/
def isDomChar (c : Nat) : Bool := isAlphaN c || isDigitN c || c = 46 || c = 45

/-- Anchored match of `^[A-Za-z0-9._%+-]+@[A-Za-z0-9.-]+\.[A-Za-z]{2,}$`:
the text is `local ++ "@" ++ dom ++ "." ++ tld` where `tld` is the all-letter
run ending the string (necessarily following the last dot). -/
def emailMatches (text : Str) : Bool :=
  let localPart := text.takeWhile (fun c => c ≠ 64)
  match text.dropWhile (fun c => c ≠ 64) with
  | [] => false
  | _ :: rest =>
    let tld := (rest.reverse.takeWhile isAlphaN).reverse
    let domPart := rest.take (rest.length - tld.length)
    decide (localPart ≠ []) && localPart.all isLocalChar &&
    decide (2 ≤ tld.length) &&
    (match domPart.getLast? with
     | some 46 => decide (domPart.length ≥ 2) &&
         (domPart.take (domPart.length - 1)).all isDomChar
     | _ => false)

/-- Embeds `validate_email` from `validator.py`. -/
def validate_email (text : Str) : Bool × Str :=
  if emailMatches text then (true, lowerStr text)
  else (false, str "That doesn't look like a valid email. Could you recheck it?")

/-- Embeds `validate_phone` from `validator.py`. -/
def validate_phone (text : Str) : Bool × Str :=
  let digits := text.filter isDigitN
  if digits.length < 10 then
    (false, str "Please provide a valid phone number with at least 10 digits.")
  else if digits.length = 10 then
    (true, str "+1 " ++ digits.take 3 ++ 45 :: (digits.drop 3).take 3
            ++ 45 :: digits.drop 6)
  else
    (true, 43 :: digits.take (digits.length - 10)
            ++ 32 :: (digits.drop (digits.length - 10)).take 3
            ++ 45 :: ((digits.drop (digits.length - 10)).drop 3).take 3
            ++ 45 :: (digits.drop (digits.length - 10)).drop 6)


/-!  ## Calendar model

The extractor manipulates Python `datetime` values normalized to midnight, so
only the calendar date matters.  A date is a year/month/day triple;
`ratadie` counts days since 0000-03-01 (proleptic Gregorian), which gives the
chronological order used by Python `datetime` comparison and the day-of-week
returned by `datetime.weekday()` (Monday = 0).
-/

structure Date where
  y : Nat
  m : Nat
  d : Nat
deriving DecidableEq, Repr

def isLeap (y : Nat) : Bool := (y % 4 = 0 && !(y % 100 = 0)) || y % 400 = 0

def daysInMonth (y m : Nat) : Nat :=
  if m = 2 then (if isLeap y then 29 else 28)
  else if m = 4 ∨ m = 6 ∨ m = 9 ∨ m = 11 then 30
  else 31

def ValidDate (t : Date) : Prop :=
  1 ≤ t.y ∧ 1 ≤ t.m ∧ t.m ≤ 12 ∧ 1 ≤ t.d ∧ t.d ≤ daysInMonth t.y t.m

instance (t : Date) : Decidable (ValidDate t) := by
  unfold ValidDate; infer_instance

/-- Days since 0000-03-01 in the proleptic Gregorian calendar. -/
def ratadie (t : Date) : Nat :=
  let yy := if t.m < 3 then t.y - 1 else t.y
  let mp := if t.m < 3 then t.m + 12 else t.m
  365 * yy + yy / 4 - yy / 100 + yy / 400 + (153 * (mp - 3) + 2) / 5 + t.d - 1

/-- Python `datetime.weekday()`: Monday = 0 … Sunday = 6. -/
def pyWeekday (t : Date) : Nat := (ratadie t + 2) % 7

/-- Embeds `datetime` / `date` comparison is chronological. -/
def dateLt (a b : Date) : Bool := ratadie a < ratadie b

/-- Embeds `datetime.replace(month=…, day=…)`-style constructor: `none` models the
`ValueError` raised on an invalid calendar date. -/
def mkDate (y m d : Nat) : Option Date :=
  if ValidDate ⟨y, m, d⟩ then some ⟨y, m, d⟩ else none

def nextDay (t : Date) : Date :=
  if t.d < daysInMonth t.y t.m then ⟨t.y, t.m, t.d + 1⟩
  else if t.m < 12 then ⟨t.y, t.m + 1, 1⟩
  else ⟨t.y + 1, 1, 1⟩

/-- Embeds `t + timedelta(days=k)` for `k ≥ 0`. -/
def addDays (t : Date) : Nat → Date
  | 0 => t
  | k + 1 => nextDay (addDays t k)

/-- Embeds `t - timedelta(days=1)`. -/
def prevDay (t : Date) : Date :=
  if 1 < t.d then ⟨t.y, t.m, t.d - 1⟩
  else if 1 < t.m then ⟨t.y, t.m - 1, daysInMonth t.y (t.m - 1)⟩
  else ⟨t.y - 1, 12, 31⟩

/-- Embeds `t + relativedelta(months=1)`: next calendar month, day clamped. -/
def addMonthPy (t : Date) : Date :=
  if t.m < 12 then ⟨t.y, t.m + 1, min t.d (daysInMonth t.y (t.m + 1))⟩
  else ⟨t.y + 1, 1, min t.d 31⟩


/-!  ## `src/agents/date_extractor.py`

The extractor lower-cases and strips the text, then tries four strategies in
the source's order: relative keywords, month+day phrases, weekday names, and
formal numeric dates.  Each strategy is split into a text-only scanning phase
(mirroring the source's substring / regex tests, which never consult the
reference date) and an evaluation phase that resolves the match against the
reference date.
-/

/-- Boolean list-prefix test. -/
def isPrefixOfB : Str → Str → Bool
  | [], _ => true
  | _ :: _, [] => false
  | a :: as, b :: bs => a == b && isPrefixOfB as bs

/-- Python substring containment (`needle in haystack`). -/
def containsSub (needle : Str) : Str → Bool
  | [] => needle.isEmpty
  | c :: cs => isPrefixOfB needle (c :: cs) || containsSub needle cs

/-- Remove `p` from the front of `l`, or fail. -/
def stripPrefixO : Str → Str → Option Str
  | [], l => some l
  | _ :: _, [] => none
  | a :: as, b :: bs => if a = b then stripPrefixO as bs else none

/-- Embeds `self.days_of_week`, in the source's (insertion-order) iteration order. -/
def daysOfWeek : List (Str × Nat) :=
  [(str "monday", 0), (str "tuesday", 1), (str "wednesday", 2),
   (str "thursday", 3), (str "friday", 4), (str "saturday", 5),
   (str "sunday", 6),
   (str "mon", 0), (str "tue", 1), (str "wed", 2), (str "thu", 3),
   (str "fri", 4), (str "sat", 5), (str "sun", 6)]

/-- Embeds `self.months`, in the source's (insertion-order) iteration order; the
`'may'` key appears only once. -/
def monthsTab : List (Str × Nat) :=
  [(str "january", 1), (str "february", 2), (str "march", 3),
   (str "april", 4), (str "may", 5), (str "june", 6), (str "july", 7),
   (str "august", 8), (str "september", 9), (str "october", 10),
   (str "november", 11), (str "december", 12),
   (str "jan", 1), (str "feb", 2), (str "mar", 3), (str "apr", 4),
   (str "jun", 6), (str "jul", 7), (str "aug", 8), (str "sep", 9),
   (str "oct", 10), (str "nov", 11), (str "dec", 12)]

/-- Relative-keyword matches of `_extract_relative_dates`. -/
inductive RelKind where
  | today | tomorrow | yesterday | nextWeek | thisWeek | nextMonth
  | inDays (n : Nat) | inWeeks (n : Nat)
deriving DecidableEq, Repr

/-- Match `in (\d+) <kw>` at the head of `l` (regex `in (\d+) days?` with the
optional trailing `s` unconstrained). -/
def matchInAt (kw : Str) (l : Str) : Option Nat :=
  match stripPrefixO (str "in ") l with
  | none => none
  | some r =>
    let ds := r.takeWhile isDigitN
    if ds.isEmpty then none
    else
      match stripPrefixO (32 :: kw) (r.dropWhile isDigitN) with
      | none => none
      | some _ => some (digitsToNat ds)

/-- Embeds `re.search` for `in (\d+) <kw>`: leftmost match. -/
def searchInN (kw : Str) : Str → Option Nat
  | [] => none
  | c :: cs =>
    match matchInAt kw (c :: cs) with
    | some n => some n
    | none => searchInN kw cs

/-- Text-only scan of `_extract_relative_dates`, in the source's order. -/
def relScan (text : Str) : Option RelKind :=
  if containsSub (str "today") text then some .today
  else if containsSub (str "tomorrow") text then some .tomorrow
  else if containsSub (str "yesterday") text then some .yesterday
  else if containsSub (str "next week") text then some .nextWeek
  else if containsSub (str "this week") text then some .thisWeek
  else if containsSub (str "next month") text then some .nextMonth
  else
    match searchInN (str "day") text with
    | some n => some (.inDays n)
    | none =>
      match searchInN (str "week") text with
      | some n => some (.inWeeks n)
      | none => none

/-- Resolve a relative keyword against the reference date. -/
def evalRel (ref : Date) : RelKind → Date
  | .today => ref
  | .tomorrow => addDays ref 1
  | .yesterday => prevDay ref
  | .nextWeek => addDays ref 7
  | .thisWeek => addDays ref (((4 : Int) - (pyWeekday ref : Int)) % 7).toNat
  | .nextMonth => addMonthPy ref
  | .inDays n => addDays ref n
  | .inWeeks n => addDays ref (7 * n)

/-- Embeds `_extract_relative_dates`. -/
def extract_relative_dates (text : Str) (ref : Date) : Option Date :=
  (relScan text).map (evalRel ref)

/-- The three sub-patterns of `_extract_day_names`, in priority order. -/
inductive DayBranch where
  | nextB | thisB | bareB
deriving DecidableEq, Repr

/-- Which sub-pattern (if any) a single weekday name matches in `text`. -/
def dayScanEntry (text name : Str) : Option DayBranch :=
  if containsSub (str "next " ++ name) text then some .nextB
  else if containsSub (str "this " ++ name) text then some .thisB
  else if containsSub name text && !containsSub (str "last") text then some .bareB
  else none

/-- Text-only scan of `_extract_day_names`: first weekday name (in table
order) with a matching sub-pattern. -/
def dayScan (text : Str) : Option (DayBranch × Nat) :=
  daysOfWeek.findSome? (fun p => (dayScanEntry text p.1).map (fun br => (br, p.2)))

/-- Resolve a weekday match: `days_ahead = day_num - current_weekday`,
bumped by 7 when `≤ 0` (`next`/bare) or `< 0` (`this`). -/
def evalDayBranch (ref : Date) (br : DayBranch) (dayNum : Nat) : Date :=
  let diff : Int := (dayNum : Int) - (pyWeekday ref : Int)
  match br with
  | .nextB => addDays ref (if diff ≤ 0 then (diff + 7).toNat else diff.toNat)
  | .thisB => addDays ref (if diff < 0 then (diff + 7).toNat else diff.toNat)
  | .bareB => addDays ref (if diff ≤ 0 then (diff + 7).toNat else diff.toNat)

/-- Embeds `_extract_day_names`. -/
def extract_day_names (text : Str) (ref : Date) : Option Date :=
  (dayScan text).map (fun p => evalDayBranch ref p.1 p.2)

/-- Match `<month>[\s]+(\d{1,2})(st|nd|rd|th)?` at the head of `l`
(the greedy 1–2 digit group; the ordinal suffix is unconstrained). -/
def matchMonthDayAt (mname l : Str) : Option Nat :=
  match stripPrefixO mname l with
  | none => none
  | some r =>
    if (r.takeWhile isSpaceN).isEmpty then none
    else
      match r.dropWhile isSpaceN with
      | [] => none
      | a :: rest =>
        if isDigitN a then
          match rest with
          | b :: _ => if isDigitN b then some ((a - 48) * 10 + (b - 48)) else some (a - 48)
          | [] => some (a - 48)
        else none

/-- Embeds `re.search` for the month-then-day pattern: leftmost match. -/
def searchMonthDay (mname : Str) : Str → Option Nat
  | [] => none
  | c :: cs =>
    match matchMonthDayAt mname (c :: cs) with
    | some d => some d
    | none => searchMonthDay mname cs

def ordSuffixes : List Str := [str "st", str "nd", str "rd", str "th"]

/-- Match `(\d{1,2})(st|nd|rd|th)?[\s]+of[\s]+<month>` at the head of `l`,
with the regex's greedy backtracking (two digits first, suffix first). -/
def matchDayOfAt (mname l : Str) : Option Nat :=
  let tailCheck : Str → Bool := fun r =>
    !(r.takeWhile isSpaceN).isEmpty &&
    (match stripPrefixO (str "of") (r.dropWhile isSpaceN) with
     | none => false
     | some r2 =>
       !(r2.takeWhile isSpaceN).isEmpty &&
       (stripPrefixO mname (r2.dropWhile isSpaceN)).isSome)
  let tryRest : Str → Nat → Option Nat := fun r v =>
    match ordSuffixes.findSome? (fun sfx =>
        match stripPrefixO sfx r with
        | some r2 => if tailCheck r2 then some v else none
        | none => none) with
    | some v2 => some v2
    | none => if tailCheck r then some v else none
  match l with
  | [] => none
  | a :: rest =>
    if isDigitN a then
      match rest with
      | b :: rest2 =>
        if isDigitN b then
          match tryRest rest2 ((a - 48) * 10 + (b - 48)) with
          | some v => some v
          | none => tryRest rest (a - 48)
        else tryRest rest (a - 48)
      | [] => tryRest [] (a - 48)
    else none

/-- Embeds `re.search` for the day-then-month pattern: leftmost match. -/
def searchDayOf (mname : Str) : Str → Option Nat
  | [] => none
  | c :: cs =>
    match matchDayOfAt mname (c :: cs) with
    | some d => some d
    | none => searchDayOf mname cs

/-- Per-month candidate day: pattern 1 (`december 15`) takes priority, and
when it matches pattern 2 (`15th of december`) is not consulted. -/
def specCandidate (text mname : Str) : Option Nat :=
  match searchMonthDay mname text with
  | some d => some d
  | none => searchDayOf mname text

/-- Embeds `today.replace(month=…, day=…)` with the past-date year roll; `none`
models a `ValueError` (caught by the source's `continue`). -/
def tryMonthDay (ref : Date) (mnum day : Nat) : Option Date :=
  match mkDate ref.y mnum day with
  | none => none
  | some target =>
    if dateLt target ref then mkDate (ref.y + 1) mnum day
    else some target

/-- Embeds `_extract_specific_dates`. -/
def extract_specific_dates (text : Str) (ref : Date) : Option Date :=
  monthsTab.findSome? (fun p =>
    match specCandidate text p.1 with
    | some day => tryMonthDay ref p.2 day
    | none => none)

/-- A delimiter in the formal date patterns (slash or dash). -/
def isDelim (c : Nat) : Bool := c = 45 || c = 47

/-- Exactly `n` digits from the front of `l`, with the rest. -/
def grabDigits (n : Nat) (l : Str) : Option (Nat × Str) :=
  let ds := l.take n
  if ds.length = n && ds.all isDigitN then some (digitsToNat ds, l.drop n)
  else none

def delimAt : Str → Option Str
  | c :: cs => if isDelim c then some cs else none
  | [] => none

/-- Match `\d{1,2} <delim> \d{1,2} <delim> \d{2,4}` at the head of `l` with the regex's
greedy backtracking; returns (matched substring, groups). -/
def match1At (l : Str) : Option (Str × Nat × Nat × Nat) :=
  [2, 1].findSome? fun la =>
    (grabDigits la l).bind fun ar =>
    (delimAt ar.2).bind fun r2 =>
    [2, 1].findSome? fun lb =>
      (grabDigits lb r2).bind fun br =>
      (delimAt br.2).bind fun r4 =>
      [4, 3, 2].findSome? fun lc =>
        (grabDigits lc r4).map fun cr =>
          (l.take (la + 1 + lb + 1 + lc), ar.1, br.1, cr.1)

/-- Match `\d{4} <delim> \d{1,2} <delim> \d{1,2}` at the head of `l`. -/
def match2At (l : Str) : Option (Str × Nat × Nat × Nat) :=
  (grabDigits 4 l).bind fun ar =>
  (delimAt ar.2).bind fun r2 =>
  [2, 1].findSome? fun lb =>
    (grabDigits lb r2).bind fun br =>
    (delimAt br.2).bind fun r4 =>
    [2, 1].findSome? fun lc =>
      (grabDigits lc r4).map fun cr =>
        (l.take (4 + 1 + lb + 1 + lc), ar.1, br.1, cr.1)

/-- Match `\d{1,2} <delim> \d{1,2}` at the head of `l`. -/
def match3At (l : Str) : Option (Str × Nat × Nat × Nat) :=
  [2, 1].findSome? fun la =>
    (grabDigits la l).bind fun ar =>
    (delimAt ar.2).bind fun r2 =>
    [2, 1].findSome? fun lb =>
      (grabDigits lb r2).map fun br =>
        (l.take (la + 1 + lb), ar.1, br.1, 0)

/-- Embeds `re.findall`: non-overlapping leftmost matches, resuming after each
match.  Fuel-indexed to stay structural; `l.length` fuel never runs out
because every step consumes at least one character. -/
def findAllF (m : Str → Option (Str × Nat × Nat × Nat)) :
    Nat → Str → List (Str × Nat × Nat × Nat)
  | 0, _ => []
  | _ + 1, [] => []
  | fuel + 1, c :: cs =>
    match m (c :: cs) with
    | some r => r :: findAllF m fuel ((c :: cs).drop r.1.length)
    | none => findAllF m fuel cs

def findAllP (m : Str → Option (Str × Nat × Nat × Nat)) (l : Str) :
    List (Str × Nat × Nat × Nat) :=
  findAllF m l.length l

/-- Python `str.split(sep)` for a one-character separator (keeps empties). -/
def splitOnChar (d : Nat) (l : Str) : List Str :=
  l.foldr
    (fun c acc =>
      match acc with
      | s :: rest => if c = d then [] :: s :: rest else (c :: s) :: rest
      | [] => [[c]])
    [[]]

/-- Length of `raw.split(ch)[-1]`. -/
def lastSegLen (ch : Nat) (raw : Str) : Nat :=
  ((splitOnChar ch raw).getLastD []).length

/-- Modelled from the spec: two-digit years under `dateutil.parser.parse`
resolve inside a fifty-year window around the reference year (§4.2 strategy 4
seeds the parser with the reference date). -/
def resolveYear (ref : Date) (c : Nat) : Nat :=
  if c < 100 then
    let cand := ref.y - ref.y % 100 + c
    if cand ≥ ref.y + 50 then cand - 100
    else if cand + 50 ≤ ref.y then cand + 100
    else cand
  else c

/-- Modelled from the spec: `dateutil.parser.parse` on one regex match of
`_extract_formal_dates` (an external library, not part of this repository):
pattern 1 is `MM/DD/YYYY`-style, pattern 2 `YYYY/MM/DD`-style, pattern 3 a
bare `MM/DD` with the year defaulted from the reference; an invalid calendar
date raises, which the source catches and skips.  The year-roll afterwards is
from the source: a current-year date strictly before the reference whose
final slash- or dash-delimited segment has at most two digits is moved to the
next year. -/
def evalFormalCand (ref : Date) (pk : Nat) (raw : Str) (a b c : Nat) :
    Option Date :=
  let parsed? : Option Date :=
    match pk with
    | 1 => mkDate (resolveYear ref c) a b
    | 2 => mkDate a b c
    | _ => mkDate ref.y a b
  match parsed? with
  | none => none
  | some parsed =>
    if parsed.y = ref.y ∧ dateLt parsed ref ∧
        (lastSegLen 47 raw ≤ 2 ∨ lastSegLen 45 raw ≤ 2) then
      mkDate (ref.y + 1) parsed.m parsed.d
    else some parsed

/-- Embeds `_extract_formal_dates`: the three patterns in order, each with all its
matches in order, first successfully parsed candidate wins. -/
def extract_formal_dates (text : Str) (ref : Date) : Option Date :=
  (((findAllP match1At text).map (fun m => (1, m)))
    ++ ((findAllP match2At text).map (fun m => (2, m)))
    ++ ((findAllP match3At text).map (fun m => (3, m)))).findSome?
    (fun pm : Nat × (Str × Nat × Nat × Nat) =>
      evalFormalCand ref pm.1 pm.2.1 pm.2.2.1 pm.2.2.2.1 pm.2.2.2.2)

/-- Embeds `DateExtractor.extract_date`: lower-case and strip the text, then try the
four strategies in the source's order, first hit wins. -/
def extract_date (rawText : Str) (ref : Date) : Option Date :=
  let text := stripStr (lowerStr rawText)
  ((extract_relative_dates text ref).orElse fun _ =>
    ((extract_specific_dates text ref).orElse fun _ =>
      ((extract_day_names text ref).orElse fun _ =>
        extract_formal_dates text ref)))


/-!  ## `src/chatbot/form/conversational_form.py`

The form state machine.  The date/time tools it calls
(`tool_extract_datetime_iso` / `tool_extract_date_ymd`, thin wrappers over
`dateutil.parser.parse(text, fuzzy=True)`) are external-library calls, so the
form is parameterized over them as oracles `dtIso` / `dtYmd`.
-/

inductive FormField where
  | name | phone | email | preferred | notes
deriving DecidableEq, Repr

structure FormS where
  nameV : Option Str
  phoneV : Option Str
  emailV : Option Str
  preferredV : Option Str
  notesV : Option Str
  currentField : Option FormField
deriving DecidableEq, Repr

/-- Embeds `__init__`: everything unset. -/
def emptyForm : FormS := ⟨none, none, none, none, none, none⟩

def FormS.getF (s : FormS) : FormField → Option Str
  | .name => s.nameV
  | .phone => s.phoneV
  | .email => s.emailV
  | .preferred => s.preferredV
  | .notes => s.notesV

def FormS.setF (s : FormS) (f : FormField) (v : Option Str) : FormS :=
  match f with
  | .name => { s with nameV := v }
  | .phone => { s with phoneV := v }
  | .email => { s with emailV := v }
  | .preferred => { s with preferredV := v }
  | .notes => { s with notesV := v }

/-- Python truthiness of an optional string (`not collected.get(field)`:
falsy when missing or empty). -/
def truthy : Option Str → Bool
  | some (_ :: _) => true
  | _ => false

/-- Embeds `self.required_fields_order`. -/
def requiredFieldsOrder : List FormField := [.name, .phone, .email, .preferred]

/-- Embeds `_next_incomplete_required_field`. -/
def FormS.nextIncompleteRequired (s : FormS) : Option FormField :=
  requiredFieldsOrder.find? (fun f => !truthy (s.getF f))

/-- Embeds `_prompt_for`. -/
def promptFor : Option FormField → Option Str
  | none => none
  | some .name => some (str "Sure — what is your full name?")
  | some .phone => some (str "What's the best phone number to reach you?")
  | some .email => some (str "And your email address?")
  | some .preferred => some (str "When would you prefer the appointment?.")
  | some .notes => some (str "Any additional notes or preferences? (optional)")

/-- Embeds `_ack`. -/
def ackFor : FormField → Str
  | .name => str "Thanks!"
  | .phone => str "Got it."
  | .email => str "Thanks."
  | .preferred => str "Noted."
  | .notes => str "Thanks for the details."

/-- Embeds `_validate_and_normalize`: strips the raw answer, then dispatches to the
field's validator; `preferred_datetime` uses the date/time oracles, keeping
the `ymd or dt` preference of the source. -/
def validateAndNormalize (dtIso dtYmd : Str → Option Str) (f : FormField)
    (userText : Str) : Bool × Str :=
  let text := stripStr userText
  match f with
  | .name => validate_name text
  | .phone => validate_phone text
  | .email => validate_email text
  | .preferred =>
    let dt := dtIso text
    if !truthy dt then
      (false, str "I couldn't parse a date/time. Please try something like 'tomorrow 3pm' or 'next Monday 10:30'.")
    else
      let ymd := dtYmd text
      (true, if truthy ymd then ymd.getD [] else dt.getD [])
  | .notes => (true, text)

/-- Embeds `start`: initialize the current field if unset, return its prompt. -/
def FormS.start (s : FormS) : FormS × Option Str :=
  let s' := if s.currentField.isNone
            then { s with currentField := s.nextIncompleteRequired } else s
  (s', promptFor s'.currentField)

/-- Embeds `is_complete`. -/
def FormS.is_complete (s : FormS) : Bool := s.nextIncompleteRequired.isNone

structure FormData where
  nameD : Option Str
  phoneD : Option Str
  emailD : Option Str
  preferredD : Option Str
  notesD : Option Str
deriving DecidableEq, Repr

/-- Embeds `get_data`. -/
def FormS.get_data (s : FormS) : FormData :=
  ⟨s.nameV, s.phoneV, s.emailV, s.preferredV, s.notesV⟩

/-- Embeds `reset`. -/
def FormS.reset (_ : FormS) : FormS := emptyForm

/-- Embeds `handle_input`: returns (new state, assistant reply, next prompt). -/
def FormS.handle_input (dtIso dtYmd : Str → Option Str) (s₀ : FormS)
    (userText : Str) : FormS × Str × Option Str :=
  let s := if s₀.currentField.isNone
           then { s₀ with currentField := s₀.nextIncompleteRequired } else s₀
  match s.currentField with
  | none =>
    if s.notesV = none then
      ({ s with currentField := some .notes },
       str "Anything else you'd like us to note (optional)?", none)
    else
      (s, str "Thanks! I have all the information needed.", none)
  | some field =>
    let vr := validateAndNormalize dtIso dtYmd field userText
    if !vr.1 then (s, vr.2, promptFor (some field))
    else
      let s2 := s.setF field (some vr.2)
      let s3 := { s2 with currentField := s2.nextIncompleteRequired }
      match s3.currentField with
      | none =>
        if s3.notesV = none then
          ({ s3 with currentField := some .notes },
           str "Great, I have your details. Any additional notes? (optional)", none)
        else (s3, str "All set!", none)
      | some nf => (s3, ackFor field, promptFor (some nf))

/-!  ## `src/chatbot/core/chatbot_engine.py`

The orchestrator.  External collaborators — the LLM intent detector (with its
keyword fallback), the retrieval QA chain, and the booking tool — are oracles:
`detect` is the outcome of `_detect_intent`, `qa` the QA chain call
(`Except` error models a raised exception), `book` the booking tool
(`none` models a raised exception).
-/

inductive Intent where
  | qa | appointment | contact
deriving DecidableEq, Repr

structure EngineS where
  qaConfigured : Bool
  inForm : Bool
  form : FormS
  userName : Option Str
  userPhone : Option Str
  userEmail : Option Str
deriving DecidableEq, Repr

structure ChatResponse where
  response : Str
  sources : List (Str × Str)
  needsInfo : Bool
  formPrompt : Option Str
  formComplete : Option Bool
  formData : Option FormData
deriving DecidableEq, Repr

/-- Embeds `ChatbotEngine.chat`. -/
def EngineS.chat (detect : Str → Intent)
    (qa : Str → Except Str (Str × List (Str × Str)))
    (book : FormData → Option Str) (dtIso dtYmd : Str → Option Str)
    (s : EngineS) (message : Str) : EngineS × ChatResponse :=
  if !s.qaConfigured && !s.inForm then
    (s, ⟨str "Please upload some documents first so I can help answer your questions.",
         [], false, none, none, none⟩)
  else
    let intent := detect message
    if s.inForm || (intent = .appointment || intent = .contact) then
      if !s.inForm then
        let p := s.form.start
        ({ s with inForm := true, form := p.1 },
         ⟨str "I can help schedule that. I'll need a few details.",
          [], true, p.2, some false, none⟩)
      else
        let r := FormS.handle_input dtIso dtYmd s.form message
        let form' := r.1
        if form'.is_complete then
          let data := form'.get_data
          let s2 := { s with
            form := form'
            inForm := false
            userName := data.nameD
            userPhone := data.phoneD
            userEmail := data.emailD }
          let resp :=
            match book data with
            | some (c :: cs) =>
              str "Your appointment is booked. Confirmation: " ++ (c :: cs)
            | _ => str "Thanks! I have all the details and will proceed with booking."
          (s2, ⟨resp, [], false, none, some true, some data⟩)
        else
          ({ s with form := form' }, ⟨r.2.1, [], true, r.2.2, some false, none⟩)
    else
      match qa message with
      | .ok ans => (s, ⟨ans.1, ans.2, false, none, none, none⟩)
      | .error e =>
        (s, ⟨str "I encountered an error while processing your question: " ++ e,
             [], false, none, none, none⟩)

/-- Embeds `ChatbotEngine.reset_form`. -/
def EngineS.reset_form (s : EngineS) : EngineS × ChatResponse :=
  ({ s with inForm := false, form := s.form.reset },
   ⟨str "Form reset. I'm ready to answer questions about your documents.",
    [], false, none, none, none⟩)

/-- A well-formed token: nonempty and whitespace-free. -/
def GoodTok (t : Str) : Prop := t ≠ [] ∧ ∀ c ∈ t, isSpaceN c = false

/-- Modelled from the spec: the `AAA-BBB-CCCC` grouping of a ten-digit
block (§4.1 Phone). -/
def format10 (t : Str) : Str :=
  t.take 3 ++ 45 :: (t.drop 3).take 3 ++ 45 :: t.drop 6

/-!  ## Concrete evaluations checking the embedding  -/

example : validate_name (str "jane doe") = (true, str "Jane Doe") := by decide
example : validate_name (str " a ") = (false, str "Please provide your full name.") := by decide
example : validate_phone (str "5551234567") = (true, str "+1 555-123-4567") := by decide
example : validate_phone (str "12345") =
    (false, str "Please provide a valid phone number with at least 10 digits.") := by decide
example : validate_phone (str "(91) 555-123-4567") = (true, str "+91 555-123-4567") := by decide
example : validate_email (str "User@Example.COM") = (true, str "user@example.com") := by decide
example : (validate_email (str "user@")).1 = false := by decide
example : (validate_email (str "@domain.com")).1 = false := by decide
example : (validate_email (str "user.com")).1 = false := by decide
example : pyWeekday ⟨2024, 3, 10⟩ = 6 := by decide
example : pyWeekday ⟨2024, 3, 11⟩ = 0 := by decide
example : pyWeekday ⟨2000, 3, 1⟩ = 2 := by decide
example : pyWeekday ⟨2024, 12, 25⟩ = 2 := by decide
example : addDays ⟨2024, 2, 28⟩ 2 = ⟨2024, 3, 1⟩ := by decide
example : addDays ⟨2023, 12, 31⟩ 1 = ⟨2024, 1, 1⟩ := by decide
example : extract_date (str "tomorrow") ⟨2024, 3, 10⟩ = some ⟨2024, 3, 11⟩ := by decide
example : extract_date (str "next monday") ⟨2024, 3, 10⟩ = some ⟨2024, 3, 11⟩ := by decide
example : extract_date (str "monday") ⟨2024, 3, 10⟩ = some ⟨2024, 3, 11⟩ := by decide
example : extract_date (str "yesterday") ⟨2024, 3, 10⟩ = some ⟨2024, 3, 9⟩ := by decide
example : extract_date (str "next week") ⟨2024, 3, 10⟩ = some ⟨2024, 3, 17⟩ := by decide
example : extract_date (str "december 15") ⟨2024, 3, 10⟩ = some ⟨2024, 12, 15⟩ := by decide
example : extract_date (str "friday, december 15") ⟨2024, 3, 10⟩ = some ⟨2024, 12, 15⟩ := by decide
example : extract_date (str "this friday") ⟨2024, 3, 10⟩ = some ⟨2024, 3, 15⟩ := by decide
example : extract_date (str "in 2 weeks") ⟨2024, 3, 10⟩ = some ⟨2024, 3, 24⟩ := by decide
example : extract_date (str "12/25/2024") ⟨2024, 3, 10⟩ = some ⟨2024, 12, 25⟩ := by decide
example : extract_date (str "01/05") ⟨2024, 3, 10⟩ = some ⟨2025, 1, 5⟩ := by decide
example : extract_date (str "hello") ⟨2024, 3, 10⟩ = none := by decide
example : extract_date (str "next month") ⟨2024, 1, 31⟩ = some ⟨2024, 2, 29⟩ := by decide

/-!  ## Calendar arithmetic lemmas  -/

theorem isLeap_iff (y : Nat) :
    isLeap y = true ↔ ((y % 4 = 0 ∧ y % 100 ≠ 0) ∨ y % 400 = 0) := by
  simp [isLeap]

theorem dim_pos (y m : Nat) : 1 ≤ daysInMonth y m := by
  unfold daysInMonth; split_ifs <;> omega

theorem dim_le_31 (y m : Nat) : daysInMonth y m ≤ 31 := by
  unfold daysInMonth; split_ifs <;> omega

theorem valid_nextDay {t : Date} (h : ValidDate t) : ValidDate (nextDay t) := by
  obtain ⟨y, m, d⟩ := t
  obtain ⟨hy, hm1, hm2, hd1, hd2⟩ := h
  have hp : 1 ≤ daysInMonth y (m + 1) := dim_pos y (m + 1)
  have hq : 1 ≤ daysInMonth (y + 1) 1 := dim_pos (y + 1) 1
  simp only [ValidDate, nextDay] at *
  split_ifs with h1 h2 <;> dsimp only <;>
    exact ⟨by omega, by omega, by omega, by omega, by omega⟩

set_option maxHeartbeats 1600000 in
theorem rata_nextDay {t : Date} (h : ValidDate t) :
    ratadie (nextDay t) = ratadie t + 1 := by
  obtain ⟨y, m, d⟩ := t
  obtain ⟨hy, hm1, hm2, hd1, hd2⟩ := h
  replace hy : 1 ≤ y := hy
  replace hm1 : 1 ≤ m := hm1
  replace hm2 : m ≤ 12 := hm2
  replace hd1 : 1 ≤ d := hd1
  replace hd2 : d ≤ daysInMonth y m := hd2
  simp only [nextDay]
  try dsimp only
  split_ifs with h1 h2
  · simp only [ratadie]
    try dsimp only
    split_ifs <;> omega
  · have hd : d = daysInMonth y m := le_antisymm hd2 (by omega)
    subst hd
    simp only [ratadie]
    try dsimp only
    interval_cases m <;> simp [daysInMonth, isLeap_iff] <;>
      split_ifs at * <;> omega
  · have hm : m = 12 := by omega
    subst hm
    have hd : d = 31 := by simp [daysInMonth] at hd2 h1; omega
    subst hd
    simp only [ratadie]
    try dsimp only
    split_ifs <;> omega

theorem valid_addDays {t : Date} (h : ValidDate t) (k : Nat) :
    ValidDate (addDays t k) := by
  induction k with
  | zero => exact h
  | succ n ih => exact valid_nextDay ih

theorem rata_addDays {t : Date} (h : ValidDate t) (k : Nat) :
    ratadie (addDays t k) = ratadie t + k := by
  induction k with
  | zero => rfl
  | succ n ih =>
    show ratadie (nextDay (addDays t n)) = _
    rw [rata_nextDay (valid_addDays h n), ih]
    omega

theorem findSome_eq_none {α β : Type} (f : α → Option β) (l : List α)
    (h : ∀ a ∈ l, f a = none) : l.findSome? f = none := by
  induction l with
  | nil => rfl
  | cons a as ih =>
    simp only [List.findSome?]
    rw [h a (by simp)]
    exact ih (fun x hx => h x (by simp [hx]))

/-- If no month's patterns match textually, the month+day strategy fails for
every reference date. -/
theorem extract_specific_none (text : Str) (ref : Date)
    (h : ∀ p ∈ monthsTab, specCandidate text p.1 = none) :
    extract_specific_dates text ref = none := by
  unfold extract_specific_dates
  exact findSome_eq_none _ _ (fun p hp => by rw [h p hp])

/-- Pipeline reduction: when the relative and month+day strategies fail and
the weekday scan hits, `extract_date` returns the weekday evaluation. -/
theorem extract_date_eval_days (text : Str) (ref : Date) (br : DayBranch)
    (dn : Nat)
    (h1 : relScan (stripStr (lowerStr text)) = none)
    (h2 : extract_specific_dates (stripStr (lowerStr text)) ref = none)
    (h3 : dayScan (stripStr (lowerStr text)) = some (br, dn)) :
    extract_date text ref = some (evalDayBranch ref br dn) := by
  simp only [extract_date, extract_relative_dates, extract_day_names,
    h1, h2, h3, Option.map_none', Option.map_some']
  rfl

/-- Core of the weekday arithmetic: a `next <day>` match lands 1–7 days
ahead on the requested weekday. -/
theorem c1_core (text : Str) (dn : Nat) (ref : Date) (href : ValidDate ref)
    (hdn : dn ≤ 6)
    (h1 : relScan (stripStr (lowerStr text)) = none)
    (h2 : ∀ p ∈ monthsTab, specCandidate (stripStr (lowerStr text)) p.1 = none)
    (h3 : dayScan (stripStr (lowerStr text)) = some (.nextB, dn)) :
    ∃ k, extract_date text ref = some (addDays ref k) ∧ 1 ≤ k ∧ k ≤ 7 ∧
      pyWeekday (addDays ref k) = dn := by
  have hmain := extract_date_eval_days text ref .nextB dn h1
    (extract_specific_none _ ref h2) h3
  have hw6 : pyWeekday ref ≤ 6 := by unfold pyWeekday; omega
  have hrw : (ratadie ref + 2) % 7 = pyWeekday ref := rfl
  by_cases hc : (dn : Int) - (pyWeekday ref : Int) ≤ 0
  · refine ⟨((dn : Int) - (pyWeekday ref : Int) + 7).toNat, ?_, by omega,
      by omega, ?_⟩
    · rw [hmain]
      simp only [evalDayBranch, if_pos hc]
    · unfold pyWeekday
      rw [rata_addDays href]
      omega
  · refine ⟨((dn : Int) - (pyWeekday ref : Int)).toNat, ?_, by omega,
      by omega, ?_⟩
    · rw [hmain]
      simp only [evalDayBranch, if_neg hc]
    · unfold pyWeekday
      rw [rata_addDays href]
      omega

/-- C1: the claim predicts that `extract("next monday")` with reference
2024-03-10 (a Sunday) returns 2024-03-18, at least 7 days ahead; the code
returns 2024-03-11, only one day ahead. -/
theorem c1_counterexample :
    extract_date (str "next monday") ⟨2024, 3, 10⟩ = some ⟨2024, 3, 11⟩ ∧
    (⟨2024, 3, 11⟩ : Date) ≠ ⟨2024, 3, 18⟩ ∧
    ratadie ⟨2024, 3, 11⟩ < ratadie ⟨2024, 3, 10⟩ + 7 := by decide

/-- C1 (amended): for every valid reference date and weekday-name table
entry, extracting `next <day>` returns the next occurrence of that weekday
strictly after the reference — between 1 and 7 days ahead (7 only when the
reference already falls on that weekday), not "at least 7 days"; in
particular `extract("next monday")` with reference 2024-03-10 (a Sunday)
returns 2024-03-11. -/
theorem c1_amended (nm : Str) (dn : Nat) (ref : Date)
    (hmem : (nm, dn) ∈ daysOfWeek) (href : ValidDate ref) :
    ∃ k, extract_date (str "next " ++ nm) ref = some (addDays ref k) ∧
      1 ≤ k ∧ k ≤ 7 ∧ pyWeekday (addDays ref k) = dn := by
  fin_cases hmem <;>
    exact c1_core _ _ ref href (by decide) (by decide) (by decide) (by decide)

theorem c1_amended_witness :
    ∃ k, extract_date (str "next " ++ str "monday") ⟨2024, 3, 10⟩ =
        some (addDays ⟨2024, 3, 10⟩ k) ∧
      1 ≤ k ∧ k ≤ 7 ∧ pyWeekday (addDays ⟨2024, 3, 10⟩ k) = 0 :=
  c1_amended (str "monday") 0 ⟨2024, 3, 10⟩ (by decide) (by decide)

theorem rata_mono_day {y m d e : Nat} (h : d ≤ e) :
    ratadie ⟨y, m, d⟩ ≤ ratadie ⟨y, m, e⟩ := by
  simp only [ratadie]
  split_ifs <;> omega

set_option maxHeartbeats 800000 in
theorem rata_le_dec31 {y m d : Nat} (h : ValidDate ⟨y, m, d⟩) :
    ratadie ⟨y, m, d⟩ ≤ ratadie ⟨y, 12, 31⟩ := by
  obtain ⟨hy, hm1, hm2, hd1, hd2⟩ := h
  replace hy : 1 ≤ y := hy
  replace hm1 : 1 ≤ m := hm1
  replace hm2 : m ≤ 12 := hm2
  replace hd1 : 1 ≤ d := hd1
  replace hd2 : d ≤ daysInMonth y m := hd2
  have hd31 : d ≤ 31 := le_trans hd2 (dim_le_31 y m)
  simp only [ratadie]
  interval_cases m <;> split_ifs <;> omega

set_option maxHeartbeats 800000 in
theorem rata_jan1_le {y m d : Nat} (h : ValidDate ⟨y, m, d⟩) :
    ratadie ⟨y, 1, 1⟩ ≤ ratadie ⟨y, m, d⟩ := by
  obtain ⟨hy, hm1, hm2, hd1, hd2⟩ := h
  replace hy : 1 ≤ y := hy
  replace hm1 : 1 ≤ m := hm1
  replace hm2 : m ≤ 12 := hm2
  replace hd1 : 1 ≤ d := hd1
  simp only [ratadie]
  interval_cases m <;> split_ifs <;> omega

theorem rata_addMonth {t : Date} (h : ValidDate t) :
    ratadie t < ratadie (addMonthPy t) := by
  obtain ⟨y, m, d⟩ := t
  obtain ⟨hy, hm1, hm2, hd1, hd2⟩ := h
  replace hy : 1 ≤ y := hy
  replace hm1 : 1 ≤ m := hm1
  replace hm2 : m ≤ 12 := hm2
  replace hd1 : 1 ≤ d := hd1
  replace hd2 : d ≤ daysInMonth y m := hd2
  simp only [addMonthPy]
  split_ifs with h1
  · have hv : ValidDate ⟨y, m, daysInMonth y m⟩ :=
      ⟨hy, hm1, hm2, dim_pos y m, le_refl _⟩
    have hnb : nextDay ⟨y, m, daysInMonth y m⟩ = ⟨y, m + 1, 1⟩ := by
      simp only [nextDay]
      rw [if_neg (by omega), if_pos (by omega)]
    have hr := rata_nextDay hv
    rw [hnb] at hr
    have hp := dim_pos y (m + 1)
    calc ratadie ⟨y, m, d⟩ ≤ ratadie ⟨y, m, daysInMonth y m⟩ := rata_mono_day hd2
      _ < ratadie ⟨y, m + 1, 1⟩ := by omega
      _ ≤ ratadie ⟨y, m + 1, min d (daysInMonth y (m + 1))⟩ :=
          rata_mono_day (by omega)
  · have hm12 : m = 12 := by omega
    subst hm12
    have hdim : daysInMonth y 12 = 31 := by simp [daysInMonth]
    have hv : ValidDate ⟨y, 12, 31⟩ := by
      unfold ValidDate
      dsimp only
      omega
    have hnb : nextDay ⟨y, 12, 31⟩ = ⟨y + 1, 1, 1⟩ := by
      simp only [nextDay]
      rw [if_neg (by omega), if_neg (by omega)]
    have hr := rata_nextDay hv
    rw [hnb] at hr
    have hd31 : d ≤ 31 := by omega
    calc ratadie ⟨y, 12, d⟩ ≤ ratadie ⟨y, 12, 31⟩ := rata_mono_day hd31
      _ < ratadie ⟨y + 1, 1, 1⟩ := by omega
      _ ≤ ratadie ⟨y + 1, 1, min d 31⟩ := rata_mono_day (by omega)

theorem rata_lt_next_year {ry rm rd m2 d2 : Nat}
    (h1 : ValidDate ⟨ry, rm, rd⟩) (h2 : ValidDate ⟨ry + 1, m2, d2⟩) :
    ratadie ⟨ry, rm, rd⟩ < ratadie ⟨ry + 1, m2, d2⟩ := by
  have ha := rata_le_dec31 h1
  have hb := rata_jan1_le h2
  have hdim : daysInMonth ry 12 = 31 := by simp [daysInMonth]
  have hry : 1 ≤ ry := h1.1
  have hv : ValidDate ⟨ry, 12, 31⟩ := by
    unfold ValidDate
    dsimp only
    omega
  have hn : nextDay ⟨ry, 12, 31⟩ = ⟨ry + 1, 1, 1⟩ := by
    simp only [nextDay]
    rw [if_neg (by omega), if_neg (by omega)]
  have hc := rata_nextDay hv
  rw [hn] at hc
  omega

set_option maxHeartbeats 800000 in
theorem rata_prevDay {t : Date} (h : ValidDate t) :
    ratadie (prevDay t) + 1 = ratadie t := by
  obtain ⟨y, m, d⟩ := t
  obtain ⟨hy, hm1, hm2, hd1, hd2⟩ := h
  replace hy : 1 ≤ y := hy
  replace hm1 : 1 ≤ m := hm1
  replace hm2 : m ≤ 12 := hm2
  replace hd1 : 1 ≤ d := hd1
  replace hd2 : d ≤ daysInMonth y m := hd2
  unfold prevDay
  try dsimp only
  split_ifs with h1 h2
  · simp only [ratadie]
    split_ifs <;> omega
  · have hd' : d = 1 := by omega
    subst hd'
    simp only [ratadie, daysInMonth, isLeap_iff]
    interval_cases m <;> split_ifs at * <;> simp_all [isLeap_iff] <;> omega
  · have hd' : d = 1 := by omega
    have hm' : m = 1 := by omega
    subst hd'
    subst hm'
    simp only [ratadie, daysInMonth]
    split_ifs <;> omega

/-- Pipeline reduction: a relative-keyword hit decides the result. -/
theorem extract_date_eval_rel (text : Str) (ref : Date) (k : RelKind)
    (h : relScan (stripStr (lowerStr text)) = some k) :
    extract_date text ref = some (evalRel ref k) := by
  simp only [extract_date, extract_relative_dates, h, Option.map_some']
  rfl

/-- Pipeline reduction: if the relative strategy fails and the month+day
strategy succeeds, its result decides `extract_date`. -/
theorem extract_date_eval_spec (text : Str) (ref : Date) (d : Date)
    (h1 : relScan (stripStr (lowerStr text)) = none)
    (h2 : extract_specific_dates (stripStr (lowerStr text)) ref = some d) :
    extract_date text ref = some d := by
  simp only [extract_date, extract_relative_dates, h1, h2, Option.map_none']
  rfl

/-- Pipeline reduction: when the first three strategies all fail,
`extract_date` falls through to the formal numeric strategy. -/
theorem extract_date_eval_formal (text : Str) (ref : Date)
    (h1 : relScan (stripStr (lowerStr text)) = none)
    (h2 : extract_specific_dates (stripStr (lowerStr text)) ref = none)
    (h3 : dayScan (stripStr (lowerStr text)) = none) :
    extract_date text ref =
      extract_formal_dates (stripStr (lowerStr text)) ref := by
  simp only [extract_date, extract_relative_dates, extract_day_names,
    h1, h2, h3, Option.map_none']
  rfl

theorem findSome_some {α β : Type} {f : α → Option β} {b : β} :
    ∀ {l : List α}, l.findSome? f = some b → ∃ a ∈ l, f a = some b := by
  intro l
  induction l with
  | nil => intro h; cases h
  | cons a as ih =>
    intro h
    cases hfa : f a with
    | some v =>
      simp only [List.findSome?, hfa] at h
      refine ⟨a, by simp, ?_⟩
      rw [hfa, h]
    | none =>
      simp only [List.findSome?, hfa] at h
      obtain ⟨x, hx, hfx⟩ := ih h
      exact ⟨x, by simp [hx], hfx⟩

theorem mkDate_some {y m d : Nat} {t : Date} (h : mkDate y m d = some t) :
    ValidDate t ∧ t = ⟨y, m, d⟩ := by
  unfold mkDate at h
  by_cases hv : ValidDate ⟨y, m, d⟩
  · rw [if_pos hv] at h
    cases h
    exact ⟨hv, rfl⟩
  · rw [if_neg hv] at h
    cases h

theorem tryMonthDay_ge {ref : Date} (href : ValidDate ref) {mn dy : Nat}
    {d : Date} (h : tryMonthDay ref mn dy = some d) :
    ratadie ref ≤ ratadie d := by
  unfold tryMonthDay at h
  cases hm : mkDate ref.y mn dy with
  | none => simp [hm] at h
  | some target =>
    simp only [hm] at h
    split_ifs at h with hlt
    · obtain ⟨hvd, hde⟩ := mkDate_some h
      obtain ⟨ry, rm, rd⟩ := ref
      subst hde
      exact le_of_lt (rata_lt_next_year href hvd)
    · cases h
      unfold dateLt at hlt
      simp only [decide_eq_true_eq] at hlt
      omega

theorem extract_specific_ge {text : Str} {ref d : Date} (href : ValidDate ref)
    (h : extract_specific_dates text ref = some d) :
    ratadie ref ≤ ratadie d := by
  unfold extract_specific_dates at h
  obtain ⟨p, _, hpe⟩ := findSome_some h
  cases hc : specCandidate text p.1 with
  | none => rw [hc] at hpe; cases hpe
  | some day =>
    rw [hc] at hpe
    exact tryMonthDay_ge href hpe

theorem evalRel_ge {ref : Date} (href : ValidDate ref) (k : RelKind)
    (h : k ≠ RelKind.yesterday) : ratadie ref ≤ ratadie (evalRel ref k) := by
  cases k with
  | yesterday => exact absurd rfl h
  | today => exact le_refl _
  | tomorrow => rw [evalRel, rata_addDays href]; omega
  | nextWeek => rw [evalRel, rata_addDays href]; omega
  | thisWeek => rw [evalRel, rata_addDays href]; omega
  | nextMonth => exact le_of_lt (rata_addMonth href)
  | inDays n => rw [evalRel, rata_addDays href]; omega
  | inWeeks n => rw [evalRel, rata_addDays href]; omega

theorem evalDayBranch_ge {ref : Date} (href : ValidDate ref) (br : DayBranch)
    (dn : Nat) : ratadie ref ≤ ratadie (evalDayBranch ref br dn) := by
  cases br <;> simp only [evalDayBranch] <;> split_ifs <;>
    rw [rata_addDays href] <;> omega

/-- C2: the claim says no recognized phrase ever yields a date strictly in
the past; the recognized phrase "yesterday" yields the day before the
reference. -/
theorem c2_counterexample :
    extract_date (str "yesterday") ⟨2024, 3, 10⟩ = some ⟨2024, 3, 9⟩ ∧
    ratadie ⟨2024, 3, 9⟩ < ratadie ⟨2024, 3, 10⟩ := by decide

/-- C2 (amended): whenever one of the first three strategies (relative
keyword, month+day, weekday) resolves the phrase and the matched relative
keyword is not `yesterday`, the result is on/after the reference; the
`yesterday` keyword returns exactly the day before the reference.  (The
fourth, formal-numeric strategy can return explicitly dated past values and
is excluded.) -/
theorem c2_amended :
    (∀ (text : Str) (ref r : Date), ValidDate ref →
      extract_date text ref = some r →
      relScan (stripStr (lowerStr text)) ≠ some RelKind.yesterday →
      (relScan (stripStr (lowerStr text)) = none →
        extract_specific_dates (stripStr (lowerStr text)) ref = none →
        dayScan (stripStr (lowerStr text)) ≠ none) →
      ratadie ref ≤ ratadie r) ∧
    (∀ (text : Str) (ref : Date), ValidDate ref →
      relScan (stripStr (lowerStr text)) = some RelKind.yesterday →
      extract_date text ref = some (prevDay ref) ∧
        ratadie (prevDay ref) + 1 = ratadie ref) := by
  constructor
  · intro text ref r href hex hny hfirst3
    cases hrel : relScan (stripStr (lowerStr text)) with
    | some k =>
      rw [extract_date_eval_rel text ref k hrel] at hex
      cases hex
      exact evalRel_ge href k (fun he => hny (he ▸ hrel))
    | none =>
      cases hspec : extract_specific_dates (stripStr (lowerStr text)) ref with
      | some dd =>
        rw [extract_date_eval_spec text ref dd hrel hspec] at hex
        cases hex
        exact extract_specific_ge href hspec
      | none =>
        cases hday : dayScan (stripStr (lowerStr text)) with
        | none => exact absurd hday (hfirst3 hrel hspec)
        | some p =>
          rw [extract_date_eval_days text ref p.1 p.2 hrel hspec
            (by rw [hday])] at hex
          cases hex
          exact evalDayBranch_ge href p.1 p.2
  · intro text ref href hrel
    refine ⟨extract_date_eval_rel text ref .yesterday hrel, rata_prevDay href⟩

theorem c2_amended_witness :
    ratadie (⟨2024, 3, 10⟩ : Date) ≤ ratadie ⟨2024, 3, 11⟩ ∧
    extract_date (str "yesterday") ⟨2024, 3, 10⟩ =
      some (prevDay ⟨2024, 3, 10⟩) :=
  ⟨c2_amended.1 (str "tomorrow") ⟨2024, 3, 10⟩ ⟨2024, 3, 11⟩ (by decide)
      (by decide) (by decide) (by decide),
   (c2_amended.2 (str "yesterday") ⟨2024, 3, 10⟩ (by decide) (by decide)).1⟩

/-- C3: the claim says the named-weekday strategy precedes month+day and so
decides "friday, december 15"; the code tries month+day first and returns
2024-12-15, not the weekday result 2024-03-15. -/
theorem c3_counterexample :
    extract_date (str "friday, december 15") ⟨2024, 3, 10⟩ =
      some ⟨2024, 12, 15⟩ ∧
    extract_day_names (stripStr (lowerStr (str "friday, december 15")))
      ⟨2024, 3, 10⟩ = some ⟨2024, 3, 15⟩ ∧
    (⟨2024, 12, 15⟩ : Date) ≠ ⟨2024, 3, 15⟩ := by decide

/-- C3 (amended): the strategies run in the order relative keyword →
month+day → named weekday → formal numeric, the first strategy that matches
wins and strategies are never combined: a relative-keyword hit decides the
result outright; when it fails, a month+day match decides; when both fail,
a weekday match decides; when all three fail, the result is exactly the
formal strategy's. Hence on text matching both a weekday name and a
month+day pattern the month+day strategy decides, as on
"friday, december 15" with reference 2024-03-10 where the result is the
month+day value 2024-12-15 rather than the weekday value 2024-03-15. -/
theorem c3_amended :
    (∀ (text : Str) (ref : Date) (k : RelKind),
      relScan (stripStr (lowerStr text)) = some k →
      extract_date text ref = some (evalRel ref k)) ∧
    (∀ (text : Str) (ref d : Date),
      relScan (stripStr (lowerStr text)) = none →
      extract_specific_dates (stripStr (lowerStr text)) ref = some d →
      extract_date text ref = some d) ∧
    (∀ (text : Str) (ref : Date) (br : DayBranch) (dn : Nat),
      relScan (stripStr (lowerStr text)) = none →
      extract_specific_dates (stripStr (lowerStr text)) ref = none →
      dayScan (stripStr (lowerStr text)) = some (br, dn) →
      extract_date text ref = some (evalDayBranch ref br dn)) ∧
    (∀ (text : Str) (ref : Date),
      relScan (stripStr (lowerStr text)) = none →
      extract_specific_dates (stripStr (lowerStr text)) ref = none →
      dayScan (stripStr (lowerStr text)) = none →
      extract_date text ref =
        extract_formal_dates (stripStr (lowerStr text)) ref) ∧
    extract_date (str "friday, december 15") ⟨2024, 3, 10⟩ =
      some ⟨2024, 12, 15⟩ ∧
    extract_day_names (stripStr (lowerStr (str "friday, december 15")))
      ⟨2024, 3, 10⟩ = some ⟨2024, 3, 15⟩ :=
  ⟨extract_date_eval_rel, extract_date_eval_spec,
   extract_date_eval_days, extract_date_eval_formal, by decide, by decide⟩

theorem c3_amended_witness :
    extract_date (str "tomorrow") ⟨2024, 3, 10⟩ =
      some (evalRel ⟨2024, 3, 10⟩ RelKind.tomorrow) ∧
    extract_date (str "friday, december 15") ⟨2024, 3, 10⟩ =
      some ⟨2024, 12, 15⟩ ∧
    extract_date (str "monday") ⟨2024, 3, 10⟩ =
      some (evalDayBranch ⟨2024, 3, 10⟩ DayBranch.bareB 0) ∧
    extract_date (str "12/25/2024") ⟨2024, 3, 10⟩ =
      extract_formal_dates (stripStr (lowerStr (str "12/25/2024")))
        ⟨2024, 3, 10⟩ :=
  ⟨c3_amended.1 (str "tomorrow") ⟨2024, 3, 10⟩ RelKind.tomorrow (by decide),
   c3_amended.2.1 (str "friday, december 15") ⟨2024, 3, 10⟩ ⟨2024, 12, 15⟩
     (by decide) (by decide),
   c3_amended.2.2.1 (str "monday") ⟨2024, 3, 10⟩ DayBranch.bareB 0
     (by decide) (by decide) (by decide),
   c3_amended.2.2.2.1 (str "12/25/2024") ⟨2024, 3, 10⟩
     (by decide) (by decide) (by decide)⟩

/-!  ## Splitting/joining lemmas for the name validator  -/


theorem wordsGo_eq (cs : Str) :
    wordsGo cs = words (cs.dropWhile (fun x => !isSpaceN x)) := by
  induction cs with
  | nil => rfl
  | cons c cs ih =>
    by_cases hc : isSpaceN c = true
    · rw [wordsGo, if_pos hc, List.dropWhile_cons_of_neg (by simp [hc]),
        words, if_pos hc]
    · have hc' : isSpaceN c = false := by simpa using hc
      rw [wordsGo, if_neg hc, List.dropWhile_cons_of_pos (by simp [hc'])]
      exact ih

theorem words_cons_space {c : Nat} (cs : Str) (hc : isSpaceN c = true) :
    words (c :: cs) = words cs := by
  rw [words, if_pos hc]

theorem words_cons_nonspace {c : Nat} (cs : Str) (hc : isSpaceN c = false) :
    words (c :: cs) =
      (c :: cs.takeWhile (fun x => !isSpaceN x)) ::
        words (cs.dropWhile (fun x => !isSpaceN x)) := by
  rw [words, if_neg (by simp [hc]), wordsGo_eq]

theorem words_sound (l : Str) :
    (∀ t ∈ words l, GoodTok t) ∧ (∀ t ∈ wordsGo l, GoodTok t) := by
  induction l with
  | nil => exact ⟨by simp [words], by simp [wordsGo]⟩
  | cons c cs ih =>
    by_cases hc : isSpaceN c = true
    · refine ⟨?_, ?_⟩
      · rw [words_cons_space cs hc]
        exact ih.1
      · rw [wordsGo, if_pos hc]
        exact ih.1
    · have hc' : isSpaceN c = false := by simpa using hc
      refine ⟨?_, ?_⟩
      · rw [words, if_neg (by simp [hc'])]
        intro t ht
        rcases List.mem_cons.mp ht with h | h
        · subst h
          refine ⟨by simp, ?_⟩
          intro x hx
          rcases List.mem_cons.mp hx with h | h
          · subst h; exact hc'
          · simpa using List.mem_takeWhile_imp h
        · exact ih.2 t h
      · rw [wordsGo, if_neg hc]
        exact ih.2

theorem words_all_nonspace (t : Str) (h1 : t ≠ [])
    (h2 : ∀ c ∈ t, isSpaceN c = false) : words t = [t] := by
  cases t with
  | nil => exact absurd rfl h1
  | cons c cs =>
    rw [words_cons_nonspace cs (h2 c (by simp))]
    rw [List.takeWhile_eq_self_iff.mpr (by intro x hx; simp [h2 x (by simp [hx])]),
      List.dropWhile_eq_nil_iff.mpr (by intro x hx; simp [h2 x (by simp [hx])])]
    rfl

theorem words_word_cons (t : Str) (r : Str) (h1 : t ≠ [])
    (h2 : ∀ c ∈ t, isSpaceN c = false) :
    words (t ++ 32 :: r) = t :: words r := by
  cases t with
  | nil => exact absurd rfl h1
  | cons c cs =>
    rw [List.cons_append, words_cons_nonspace _ (h2 c (by simp))]
    rw [List.takeWhile_append_of_pos (by intro x hx; simp [h2 x (by simp [hx])]),
      List.dropWhile_append_of_pos (by intro x hx; simp [h2 x (by simp [hx])])]
    rw [List.takeWhile_cons_of_neg (by simp [isSpaceN]),
      List.dropWhile_cons_of_neg (by simp [isSpaceN])]
    rw [words_cons_space r (by simp [isSpaceN])]
    simp

theorem words_join (ts : List Str) (h : ∀ t ∈ ts, GoodTok t) :
    words (joinSp ts) = ts := by
  induction ts with
  | nil => rfl
  | cons t ts ih =>
    cases ts with
    | nil =>
      obtain ⟨h1, h2⟩ := h t (by simp)
      exact words_all_nonspace t h1 h2
    | cons t2 ts2 =>
      obtain ⟨h1, h2⟩ := h t (by simp)
      show words (t ++ 32 :: joinSp (t2 :: ts2)) = _
      rw [words_word_cons t _ h1 h2,
        ih (fun x hx => h x (by simp [List.mem_cons.mp hx]))]

theorem toUpperN_fix (c : Nat) : toUpperN (toUpperN c) = toUpperN c := by
  unfold toUpperN
  split_ifs <;> omega

theorem toLowerN_fix (c : Nat) : toLowerN (toLowerN c) = toLowerN c := by
  unfold toLowerN
  split_ifs <;> omega

theorem toUpperN_nonspace {c : Nat} (h : isSpaceN c = false) :
    isSpaceN (toUpperN c) = false := by
  simp only [isSpaceN, Bool.or_eq_false_iff, decide_eq_false_iff_not] at h ⊢
  unfold toUpperN
  split_ifs <;> omega

theorem toLowerN_nonspace {c : Nat} (h : isSpaceN c = false) :
    isSpaceN (toLowerN c) = false := by
  simp only [isSpaceN, Bool.or_eq_false_iff, decide_eq_false_iff_not] at h ⊢
  unfold toLowerN
  split_ifs <;> omega

theorem capitalizePy_good {t : Str} (h : GoodTok t) : GoodTok (capitalizePy t) := by
  obtain ⟨h1, h2⟩ := h
  cases t with
  | nil => exact absurd rfl h1
  | cons a as =>
    refine ⟨by simp [capitalizePy], ?_⟩
    intro c hc
    simp only [capitalizePy, List.mem_cons, List.mem_map] at hc
    rcases hc with h | ⟨x, hx, hxe⟩
    · subst h; exact toUpperN_nonspace (h2 a (by simp))
    · subst hxe; exact toLowerN_nonspace (h2 x (by simp [hx]))

theorem capitalizePy_fix (t : Str) :
    capitalizePy (capitalizePy t) = capitalizePy t := by
  cases t with
  | nil => rfl
  | cons a as =>
    simp [capitalizePy, List.map_map, toUpperN_fix, Function.comp, toLowerN_fix]

theorem capitalizePy_length (t : Str) :
    (capitalizePy t).length = t.length := by
  cases t <;> simp [capitalizePy]

/-- The tokens of a normalized name are exactly the capitalized input tokens. -/
theorem words_nameCleaned (x : Str) :
    words (nameCleaned x) = (words x).map capitalizePy := by
  unfold nameCleaned
  refine words_join _ ?_
  intro t ht
  obtain ⟨u, hu, he⟩ := List.mem_map.mp ht
  exact he ▸ capitalizePy_good ((words_sound x).1 u hu)

/-- C9: the name validator's normalization — split on whitespace, capitalize
each token, re-join with single spaces — is idempotent on every input. -/
theorem c9_idempotent (x : Str) :
    nameCleaned (nameCleaned x) = nameCleaned x := by
  conv_lhs => rw [nameCleaned, words_nameCleaned, List.map_map]
  rw [nameCleaned]
  congr 1
  simp [Function.comp, capitalizePy_fix]

theorem dropWhile_head_false {p : Nat → Bool} (l : Str) :
    ∀ c r, l.dropWhile p = c :: r → p c = false := by
  induction l with
  | nil => intro c r h; cases h
  | cons a as ih =>
    intro c r h
    by_cases ha : p a = true
    · rw [List.dropWhile_cons_of_pos ha] at h
      exact ih c r h
    · rw [List.dropWhile_cons_of_neg ha] at h
      cases h
      simpa using ha

theorem countNS_dropWhile (l : Str) :
    (l.dropWhile isSpaceN).countP (fun c => !isSpaceN c) =
      l.countP (fun c => !isSpaceN c) := by
  conv_rhs => rw [← List.takeWhile_append_dropWhile (p := isSpaceN) (l := l)]
  rw [List.countP_append]
  have h0 : (l.takeWhile isSpaceN).countP (fun c => !isSpaceN c) = 0 :=
    List.countP_eq_zero.mpr (fun a ha => by simp [List.mem_takeWhile_imp ha])
  omega

theorem countNS_strip (x : Str) :
    (stripStr x).countP (fun c => !isSpaceN c) =
      x.countP (fun c => !isSpaceN c) := by
  unfold stripStr
  rw [List.countP_reverse, countNS_dropWhile, List.countP_reverse,
    countNS_dropWhile]

theorem strip_len_le_one {x : Str}
    (h : x.countP (fun c => !isSpaceN c) ≤ 1) : (stripStr x).length ≤ 1 := by
  unfold stripStr
  cases hd : x.dropWhile isSpaceN with
  | nil => simp
  | cons c v =>
    have hc : isSpaceN c = false := dropWhile_head_false x c v hd
    have hx : x.countP (fun a => !isSpaceN a) =
        (c :: v).countP (fun a => !isSpaceN a) := by
      rw [← hd, countNS_dropWhile]
    have hcount : (c :: v).countP (fun a => !isSpaceN a) =
        v.countP (fun a => !isSpaceN a) + 1 :=
      List.countP_cons_of_pos _ _ (by simp [hc])
    have hv : v.countP (fun a => !isSpaceN a) = 0 := by omega
    have hvall : ∀ a ∈ v.reverse, isSpaceN a = true := by
      intro a ha
      have := List.countP_eq_zero.mp hv a (List.mem_reverse.mp ha)
      simpa using this
    rw [List.reverse_cons, List.dropWhile_append_of_pos hvall,
      List.dropWhile_cons_of_neg (by simp [hc])]
    simp

theorem joinSp_ge_head (a : Str) (rest : List Str) :
    a.length ≤ (joinSp (a :: rest)).length := by
  cases rest <;> simp [joinSp]

theorem words_countP (l : Str) :
    (((words l).map List.length).sum = l.countP (fun c => !isSpaceN c)) ∧
    (((wordsGo l).map List.length).sum =
      (l.dropWhile (fun x => !isSpaceN x)).countP (fun c => !isSpaceN c)) := by
  induction l with
  | nil => exact ⟨rfl, rfl⟩
  | cons c cs ih =>
    by_cases hc : isSpaceN c = true
    · have hna : ¬((fun a : Nat => !isSpaceN a) c = true) := by simp [hc]
      have hcc := List.countP_cons_of_neg (fun a : Nat => !isSpaceN a) cs hna
      refine ⟨?_, ?_⟩
      · rw [words_cons_space cs hc, ih.1, hcc]
      · rw [wordsGo, if_pos hc, List.dropWhile_cons_of_neg (by simp [hc]), hcc]
        exact ih.1
    · have hc' : isSpaceN c = false := by simpa using hc
      have hpa : (fun a : Nat => !isSpaceN a) c = true := by simp [hc']
      have hcc := List.countP_cons_of_pos (fun a : Nat => !isSpaceN a) cs hpa
      have heq : (cs.takeWhile (fun x => !isSpaceN x)).countP
          (fun a => !isSpaceN a) =
          (cs.takeWhile (fun x => !isSpaceN x)).length :=
        List.countP_eq_length.mpr (fun a ha => by
          simpa using List.mem_takeWhile_imp ha)
      have hsplit : cs.countP (fun a => !isSpaceN a) =
          (cs.takeWhile (fun x => !isSpaceN x)).length +
          (cs.dropWhile (fun x => !isSpaceN x)).countP (fun a => !isSpaceN a) := by
        conv_lhs => rw [← List.takeWhile_append_dropWhile
          (p := fun x => !isSpaceN x) (l := cs)]
        rw [List.countP_append]
        omega
      refine ⟨?_, ?_⟩
      · rw [words, if_neg (by simp [hc'])]
        simp only [List.map_cons, List.sum_cons, List.length_cons]
        rw [ih.2, hcc]
        omega
      · rw [wordsGo, if_neg hc, List.dropWhile_cons_of_pos (by simp [hc'])]
        exact ih.2

theorem joinSp_caps_short_iff (ts : List Str) (h : ∀ t ∈ ts, GoodTok t) :
    (joinSp (ts.map capitalizePy)).length < 2 ↔ (ts.map List.length).sum < 2 := by
  cases ts with
  | nil => simp [joinSp]
  | cons t ts =>
    have hl1 : 1 ≤ t.length := List.length_pos.mpr (h t (by simp)).1
    cases ts with
    | nil =>
      show (joinSp [capitalizePy t]).length < 2 ↔ _
      simp [joinSp, capitalizePy_length]
    | cons t2 ts2 =>
      have hl2 : 1 ≤ t2.length := List.length_pos.mpr (h t2 (by simp)).1
      have hg : (capitalizePy t2).length ≤
          (joinSp (capitalizePy t2 :: ts2.map capitalizePy)).length :=
        joinSp_ge_head _ _
      show (capitalizePy t ++
          32 :: joinSp (capitalizePy t2 :: ts2.map capitalizePy)).length < 2 ↔ _
      rw [List.length_append]
      simp only [List.length_cons, capitalizePy_length, List.map_cons,
        List.sum_cons] at *
      omega

theorem nameCleaned_short_iff (x : Str) :
    (nameCleaned x).length < 2 ↔ x.countP (fun c => !isSpaceN c) < 2 := by
  unfold nameCleaned
  rw [joinSp_caps_short_iff (words x) (words_sound x).1, (words_countP x).1]

/-- C8: `capitalize()` lower-cases the interior of each token, so existing
interior capitals are not preserved: "McDonald" normalizes to "Mcdonald",
not "McDonald". -/
theorem c8_counterexample :
    validate_name (str "McDonald") = (true, str "Mcdonald") ∧
    str "Mcdonald" ≠ str "McDonald" := by decide

/-- C8 (amended): name validation splits on whitespace, re-joins the tokens
with single spaces, upper-cases the first character of each token and
lower-cases every remaining character of the token (interior capitals are
not preserved); input is rejected exactly when fewer than 2 characters
remain after trimming. -/
theorem c8_amended (x : Str) :
    ((validate_name x).1 = false ↔ (stripStr x).length < 2) ∧
    ((validate_name x).1 = true →
      words (validate_name x).2 = (words x).map capitalizePy) := by
  have hcount := countNS_strip x
  have hshort := nameCleaned_short_iff x
  have hle := List.countP_le_length (p := fun c => !isSpaceN c) (l := stripStr x)
  by_cases h : (nameCleaned x).length < 2
  · have hv : validate_name x = (false, str "Please provide your full name.") := by
      unfold validate_name
      rw [if_pos h]
    refine ⟨?_, ?_⟩
    · simp only [hv, true_iff]
      have h2 : x.countP (fun c => !isSpaceN c) < 2 := hshort.mp h
      have h3 := strip_len_le_one (x := x) (by omega)
      omega
    · simp only [hv]
      intro hf
      simp at hf
  · have hv : validate_name x = (true, nameCleaned x) := by
      unfold validate_name
      rw [if_neg h]
    refine ⟨?_, ?_⟩
    · simp only [hv]
      refine ⟨fun hf => absurd hf (by decide),
        fun hlt => absurd (hshort.mpr (by omega)) h⟩
    · intro _
      simp only [hv]
      exact words_nameCleaned x

theorem c8_amended_witness :
    ((validate_name (str " a ")).1 = false ↔
      (stripStr (str " a ")).length < 2) ∧
    words (validate_name (str "jane doe")).2 =
      (words (str "jane doe")).map capitalizePy :=
  ⟨(c8_amended (str " a ")).1, (c8_amended (str "jane doe")).2 (by decide)⟩


/-- C7: phone validation keeps only digits, rejects exactly when fewer than
ten remain, formats exactly ten digits as `+1 AAA-BBB-CCCC`, and with more
than ten digits formats the trailing ten as `AAA-BBB-CCCC` behind the
leading digits as country code. -/
theorem c7_phone (x : Str) :
    ((validate_phone x).1 = false ↔ (x.filter isDigitN).length < 10) ∧
    ((x.filter isDigitN).length = 10 →
      validate_phone x = (true, str "+1 " ++ format10 (x.filter isDigitN))) ∧
    (10 < (x.filter isDigitN).length →
      validate_phone x = (true,
        (43 :: (x.filter isDigitN).take ((x.filter isDigitN).length - 10)) ++
        32 :: format10 ((x.filter isDigitN).drop
          ((x.filter isDigitN).length - 10)))) := by
  simp only [validate_phone, format10]
  refine ⟨?_, ?_, ?_⟩
  · split_ifs with h1 h2 <;> simp <;> omega
  · intro h
    rw [if_neg (by omega), if_pos h]
    simp [List.append_assoc]
  · intro h
    rw [if_neg (by omega), if_neg (by omega)]
    simp [List.append_assoc]

theorem c7_phone_witness :
    validate_phone (str "5551234567") =
      (true, str "+1 " ++ format10 ((str "5551234567").filter isDigitN)) ∧
    (validate_phone (str "12345")).1 = false :=
  ⟨(c7_phone (str "5551234567")).2.1 (by decide),
   (c7_phone (str "12345")).1.mpr (by decide)⟩

/-- C5: while a field is being collected, a rejected answer leaves the form
state completely unchanged and returns the rejection message together with
the same field's prompt — for every rejected answer. -/
theorem c5_rejection (dtIso dtYmd : Str → Option Str) (s : FormS)
    (f : FormField) (x : Str)
    (hcur : s.currentField = some f)
    (hreq : f ∈ requiredFieldsOrder)
    (hrej : (validateAndNormalize dtIso dtYmd f x).1 = false) :
    FormS.handle_input dtIso dtYmd s x =
      (s, (validateAndNormalize dtIso dtYmd f x).2, promptFor (some f)) := by
  unfold FormS.handle_input
  have hnn : s.currentField.isNone = false := by rw [hcur]; rfl
  rw [hnn]
  simp only [Bool.false_eq_true, if_false, hcur, hrej, Bool.not_false, if_true]

theorem c5_rejection_witness :
    FormS.handle_input (fun _ => none) (fun _ => none)
      { emptyForm with currentField := some FormField.name } (str "x") =
      ({ emptyForm with currentField := some FormField.name },
       (validateAndNormalize (fun _ => none) (fun _ => none)
         FormField.name (str "x")).2,
       promptFor (some FormField.name)) :=
  c5_rejection (fun _ => none) (fun _ => none) _ FormField.name (str "x")
    rfl (by decide) (by decide)

/-- C10: on a fresh form, `handle_input` first auto-initializes the current
field to the first unfilled required field, so it behaves exactly like
`start()` followed by `handle_input` — same resulting state and same
returned reply — for every input and every date/time oracle. -/
theorem c10_start_equiv (dtIso dtYmd : Str → Option Str) (x : Str) :
    FormS.handle_input dtIso dtYmd emptyForm x =
      FormS.handle_input dtIso dtYmd (FormS.start emptyForm).1 x ∧
    (FormS.start emptyForm).1.currentField = some FormField.name := by
  constructor
  · rfl
  · rfl

/-- C6: once the in-form flag is set, the classified intent is ignored (any
two intent oracles produce identical turns), the message is routed into the
form, and the flag stays set until the turn on which the form completes;
`reset_form` always clears it. -/
theorem c6_routing (detect1 detect2 : Str → Intent)
    (qa : Str → Except Str (Str × List (Str × Str)))
    (book : FormData → Option Str) (dtIso dtYmd : Str → Option Str)
    (s : EngineS) (msg : Str) (hin : s.inForm = true) :
    EngineS.chat detect1 qa book dtIso dtYmd s msg =
      EngineS.chat detect2 qa book dtIso dtYmd s msg ∧
    (EngineS.chat detect1 qa book dtIso dtYmd s msg).1.form =
      (FormS.handle_input dtIso dtYmd s.form msg).1 ∧
    ((EngineS.chat detect1 qa book dtIso dtYmd s msg).1.inForm =
      !(FormS.handle_input dtIso dtYmd s.form msg).1.is_complete) ∧
    (EngineS.reset_form s).1.inForm = false := by
  unfold EngineS.chat
  simp only [hin, Bool.not_true, Bool.and_false, Bool.false_eq_true, if_false,
    Bool.true_or, if_true]
  refine ⟨by trivial, ?_, ?_, by trivial⟩ <;>
    by_cases hcomp :
      (FormS.handle_input dtIso dtYmd s.form msg).1.is_complete = true <;>
    simp [hcomp]

theorem c6_routing_witness :
    EngineS.chat (fun _ => Intent.qa) (fun _ => Except.error [])
        (fun _ => none) (fun _ => none) (fun _ => none)
        ⟨true, true, emptyForm, none, none, none⟩ (str "jane doe") =
      EngineS.chat (fun _ => Intent.appointment) (fun _ => Except.error [])
        (fun _ => none) (fun _ => none) (fun _ => none)
        ⟨true, true, emptyForm, none, none, none⟩ (str "jane doe") ∧
    (EngineS.chat (fun _ => Intent.qa) (fun _ => Except.error [])
        (fun _ => none) (fun _ => none) (fun _ => none)
        ⟨true, true, emptyForm, none, none, none⟩ (str "jane doe")).1.form =
      (FormS.handle_input (fun _ => none) (fun _ => none) emptyForm
        (str "jane doe")).1 ∧
    ((EngineS.chat (fun _ => Intent.qa) (fun _ => Except.error [])
        (fun _ => none) (fun _ => none) (fun _ => none)
        ⟨true, true, emptyForm, none, none, none⟩ (str "jane doe")).1.inForm =
      !(FormS.handle_input (fun _ => none) (fun _ => none) emptyForm
        (str "jane doe")).1.is_complete) ∧
    (EngineS.reset_form ⟨true, true, emptyForm, none, none, none⟩).1.inForm =
      false :=
  c6_routing (fun _ => Intent.qa) (fun _ => Intent.appointment)
    (fun _ => Except.error []) (fun _ => none) (fun _ => none) (fun _ => none)
    ⟨true, true, emptyForm, none, none, none⟩ (str "jane doe") rfl

/-- C4: on the turn that completes the form with a failing booking sink, the
response is the generic completion acknowledgment without a confirmation
identifier and the in-progress flag is cleared, but the collected values are
NOT cleared: the form is not reset to the NotStarted-equivalent state. -/
theorem c4_counterexample :
    (EngineS.chat (fun _ => Intent.qa) (fun _ => Except.error [])
        (fun _ => none) (fun _ => none) (fun _ => none)
        ⟨true, true,
         ⟨some (str "Jane"), some (str "+1 555-123-4567"),
          some (str "jane@example.com"), some (str "2024-03-11"), none,
          some FormField.notes⟩, none, none, none⟩
        (str "ok")).2.response =
      str "Thanks! I have all the details and will proceed with booking." ∧
    (EngineS.chat (fun _ => Intent.qa) (fun _ => Except.error [])
        (fun _ => none) (fun _ => none) (fun _ => none)
        ⟨true, true,
         ⟨some (str "Jane"), some (str "+1 555-123-4567"),
          some (str "jane@example.com"), some (str "2024-03-11"), none,
          some FormField.notes⟩, none, none, none⟩
        (str "ok")).1.inForm = false ∧
    (EngineS.chat (fun _ => Intent.qa) (fun _ => Except.error [])
        (fun _ => none) (fun _ => none) (fun _ => none)
        ⟨true, true,
         ⟨some (str "Jane"), some (str "+1 555-123-4567"),
          some (str "jane@example.com"), some (str "2024-03-11"), none,
          some FormField.notes⟩, none, none, none⟩
        (str "ok")).1.form.nameV = some (str "Jane") ∧
    (EngineS.chat (fun _ => Intent.qa) (fun _ => Except.error [])
        (fun _ => none) (fun _ => none) (fun _ => none)
        ⟨true, true,
         ⟨some (str "Jane"), some (str "+1 555-123-4567"),
          some (str "jane@example.com"), some (str "2024-03-11"), none,
          some FormField.notes⟩, none, none, none⟩
        (str "ok")).1.form ≠ emptyForm := by decide

/-- C4 (amended): when the form completes on this turn and the booking sink
raises, the turn response is the fixed completion acknowledgment with no
confirmation identifier, no further form prompt, and the collected data
attached; the in-progress flag is cleared for the next turn, but the form's
collected values are retained (not cleared) until an explicit reset. -/
theorem c4_amended (detect : Str → Intent)
    (qa : Str → Except Str (Str × List (Str × Str)))
    (book : FormData → Option Str) (dtIso dtYmd : Str → Option Str)
    (s : EngineS) (msg : Str)
    (hin : s.inForm = true)
    (hcomp : (FormS.handle_input dtIso dtYmd s.form msg).1.is_complete = true)
    (hbook : book (FormS.get_data
      (FormS.handle_input dtIso dtYmd s.form msg).1) = none) :
    EngineS.chat detect qa book dtIso dtYmd s msg =
      ({ s with
          form := (FormS.handle_input dtIso dtYmd s.form msg).1
          inForm := false
          userName := (FormS.get_data
            (FormS.handle_input dtIso dtYmd s.form msg).1).nameD
          userPhone := (FormS.get_data
            (FormS.handle_input dtIso dtYmd s.form msg).1).phoneD
          userEmail := (FormS.get_data
            (FormS.handle_input dtIso dtYmd s.form msg).1).emailD },
       ⟨str "Thanks! I have all the details and will proceed with booking.",
        [], false, none, some true,
        some (FormS.get_data (FormS.handle_input dtIso dtYmd s.form msg).1)⟩) := by
  unfold EngineS.chat
  simp only [hin, Bool.not_true, Bool.and_false, Bool.false_eq_true, if_false,
    Bool.true_or, if_true, hcomp, hbook]

theorem c4_amended_witness :
    EngineS.chat (fun _ => Intent.qa) (fun _ => Except.error [])
      (fun _ => none) (fun _ => none) (fun _ => none)
      ⟨true, true,
       ⟨some (str "Jane"), some (str "+1 555-123-4567"),
        some (str "jane@example.com"), some (str "2024-03-11"), none,
        some FormField.notes⟩, none, none, none⟩ (str "ok") =
      ({ (⟨true, true,
          ⟨some (str "Jane"), some (str "+1 555-123-4567"),
           some (str "jane@example.com"), some (str "2024-03-11"), none,
           some FormField.notes⟩, none, none, none⟩ : EngineS) with
          form := (FormS.handle_input (fun _ => none) (fun _ => none)
            ⟨some (str "Jane"), some (str "+1 555-123-4567"),
             some (str "jane@example.com"), some (str "2024-03-11"), none,
             some FormField.notes⟩ (str "ok")).1
          inForm := false
          userName := (FormS.get_data (FormS.handle_input (fun _ => none)
            (fun _ => none)
            ⟨some (str "Jane"), some (str "+1 555-123-4567"),
             some (str "jane@example.com"), some (str "2024-03-11"), none,
             some FormField.notes⟩ (str "ok")).1).nameD
          userPhone := (FormS.get_data (FormS.handle_input (fun _ => none)
            (fun _ => none)
            ⟨some (str "Jane"), some (str "+1 555-123-4567"),
             some (str "jane@example.com"), some (str "2024-03-11"), none,
             some FormField.notes⟩ (str "ok")).1).phoneD
          userEmail := (FormS.get_data (FormS.handle_input (fun _ => none)
            (fun _ => none)
            ⟨some (str "Jane"), some (str "+1 555-123-4567"),
             some (str "jane@example.com"), some (str "2024-03-11"), none,
             some FormField.notes⟩ (str "ok")).1).emailD },
       ⟨str "Thanks! I have all the details and will proceed with booking.",
        [], false, none, some true,
        some (FormS.get_data (FormS.handle_input (fun _ => none)
          (fun _ => none)
          ⟨some (str "Jane"), some (str "+1 555-123-4567"),
           some (str "jane@example.com"), some (str "2024-03-11"), none,
           some FormField.notes⟩ (str "ok")).1)⟩) :=
  c4_amended (fun _ => Intent.qa) (fun _ => Except.error []) (fun _ => none)
    (fun _ => none) (fun _ => none)
    ⟨true, true,
     ⟨some (str "Jane"), some (str "+1 555-123-4567"),
      some (str "jane@example.com"), some (str "2024-03-11"), none,
      some FormField.notes⟩, none, none, none⟩ (str "ok")
    rfl (by decide) (by decide)
